import Mathlib

/-!
Shallow embedding of the `signal` crate (tailhook/signal): the `Trap`
synchronous signal guard (src/trap.rs) and the crash-exec handler
(src/exec_handler.rs).  OS signal state (the thread signal mask and the
per-signal dispositions installed via `sigaction`) is modelled explicitly;
the OS calls made by the library become pure state transformers, and
code whose behaviour depends on the OS or the clock (sigtimedwait results,
current time, sigaction failures) is parametrised by an oracle.
-/

/-- A signal number (`nix::sys::signal::Signal`, i.e. a C `int`). -/
abbrev Sig := Nat

/-- The function a signal disposition points at (`SigHandler` in nix). -/
inductive HandlerKind where
  | sigDfl
  | sigIgn
  /-- `empty_handler` from src/trap.rs. -/
  | emptyHandler
  /-- `exec_handler` from src/exec_handler.rs. -/
  | execHandler
  /-- any other handler installed by the surrounding program -/
  | other (n : Nat)
  deriving DecidableEq, Repr

/-- A `sigaction` value: the handler together with its `sa_mask`
(`SigAction::new(handler, SaFlags::empty(), mask)`). -/
structure SigActionV where
  handler : HandlerKind
  mask : Finset Sig
  deriving DecidableEq

/-- OS per-thread signal state visible to src/trap.rs: the signal mask and
the disposition of each signal. -/
structure OsState where
  mask : Finset Sig
  disp : Sig → SigActionV

/-- `SigSet::empty()` followed by `sigset.add(sig)` for each listed signal
(src/trap.rs lines 41-44, src/exec_handler.rs lines 125-130). -/
def mkSigSet (signals : List Sig) : Finset Sig :=
  signals.foldl (fun s a => insert a s) ∅

/-- Pointwise update of a disposition table, as one successful
`sigaction(sig, act)` call leaves it. -/
def updDisp (d : Sig → SigActionV) (sig : Sig) (act : SigActionV) : Sig → SigActionV :=
  fun x => if x = sig then act else d x

/-- The no-op action `trap` installs: `SigAction::new(SigHandler::Handler(empty_handler),
SaFlags::empty(), sigset)` (src/trap.rs lines 54-55). -/
def emptyAction (sigset : Finset Sig) : SigActionV :=
  { handler := .emptyHandler, mask := sigset }

/-- The guard returned by `Trap::trap` (struct `Trap`, src/trap.rs lines 28-32). -/
structure Trap where
  oldset : Finset Sig
  oldsigs : List (Sig × SigActionV)
  sigset : Finset Sig

/-- The `for &sig in signals` loop of `Trap::trap` (src/trap.rs lines 52-57):
install `emptyAction sigset` for each signal in list order, pushing the
previous disposition onto `oldsigs`.  Returns the saved pairs and the
resulting disposition table. -/
def trapLoop (sigset : Finset Sig) : List Sig → (Sig → SigActionV) →
    List (Sig × SigActionV) × (Sig → SigActionV)
  | [], d => ([], d)
  | sig :: rest, d =>
      let old := d sig
      let out := trapLoop sigset rest (updDisp d sig (emptyAction sigset))
      ((sig, old) :: out.1, out.2)

/-- `Trap::trap(signals)` (src/trap.rs lines 39-64): block the given signals
(`pthread_sigmask(SIG_BLOCK, sigset, &mut oldset)`), then install the empty
handler for each, saving each previous disposition. -/
def Trap.trap (signals : List Sig) (s : OsState) : Trap × OsState :=
  let sigset := mkSigSet signals
  let oldset := s.mask
  let out := trapLoop sigset signals s.disp
  (⟨oldset, out.1, sigset⟩,
   { mask := s.mask ∪ sigset, disp := out.2 })

/-- The restore loop of `Drop for Trap` (src/trap.rs lines 128-130):
`sigaction(sig, sigact)` for each saved pair in the saved order. -/
def restoreLoop : List (Sig × SigActionV) → (Sig → SigActionV) → (Sig → SigActionV)
  | [], d => d
  | (sig, act) :: rest, d => restoreLoop rest (updDisp d sig act)

/-- `Drop for Trap` (src/trap.rs lines 125-135): restore the saved
dispositions in saved order, then `pthread_sigmask(SIG_SETMASK, oldset)`. -/
def Trap.drop (t : Trap) (s : OsState) : OsState :=
  { mask := t.oldset, disp := restoreLoop t.oldsigs s.disp }

theorem mem_mkSigSet (signals : List Sig) (x : Sig) :
    x ∈ mkSigSet signals ↔ x ∈ signals := by
  suffices h : ∀ (init : Finset Sig),
      x ∈ signals.foldl (fun s a => insert a s) init ↔ x ∈ signals ∨ x ∈ init by
    simpa [mkSigSet] using h ∅
  induction signals with
  | nil => simp
  | cons a rest ih =>
      intro init
      simp [List.foldl_cons, ih, Finset.mem_insert]
      tauto

theorem trapLoop_fst_map (sigset : Finset Sig) (l : List Sig) (d : Sig → SigActionV) :
    (trapLoop sigset l d).1.map Prod.fst = l := by
  induction l generalizing d with
  | nil => rfl
  | cons a rest ih => simp [trapLoop, ih]

theorem restoreLoop_updDisp_comm (olds : List (Sig × SigActionV)) (a : Sig)
    (v : SigActionV) (d : Sig → SigActionV) (ha : a ∉ olds.map Prod.fst) (x : Sig) :
    restoreLoop olds (updDisp d a v) x = updDisp (restoreLoop olds d) a v x := by
  induction olds generalizing d with
  | nil => rfl
  | cons p rest ih =>
      obtain ⟨b, w⟩ := p
      have hba : b ≠ a := by
        intro h; apply ha; simp [h]
      have ha' : a ∉ rest.map Prod.fst := by
        intro h; apply ha; simp [h]
      have hswap : updDisp (updDisp d a v) b w = updDisp (updDisp d b w) a v := by
        funext y
        by_cases hy : y = b <;> by_cases hy' : y = a <;>
          simp_all [updDisp]
      simp only [restoreLoop, hswap, ih _ ha']

/-- With no duplicate signals, running the trap install loop and then
restoring the saved dispositions in saved order gives back the original
disposition table. -/
theorem restore_trapLoop (sigset : Finset Sig) (l : List Sig) (hl : l.Nodup)
    (d : Sig → SigActionV) (x : Sig) :
    restoreLoop (trapLoop sigset l d).1 (trapLoop sigset l d).2 x = d x := by
  induction l generalizing d with
  | nil => rfl
  | cons a rest ih =>
      have hna : a ∉ rest := (List.nodup_cons.mp hl).1
      have hrest : rest.Nodup := (List.nodup_cons.mp hl).2
      have hfst : a ∉ (trapLoop sigset rest (updDisp d a (emptyAction sigset))).1.map Prod.fst := by
        rw [trapLoop_fst_map]; exact hna
      simp only [trapLoop, restoreLoop]
      rw [restoreLoop_updDisp_comm _ _ _ _ hfst]
      by_cases hx : x = a
      · simp [updDisp, hx]
      · simp only [updDisp, if_neg hx]
        have := ih hrest (updDisp d a (emptyAction sigset))
        simpa [updDisp, hx] using this

/-- C1: for a duplicate-free signal list (a signal set), `Trap::trap`
followed immediately by `Drop` (no intervening wait) restores exactly the
prior signal mask and the prior disposition of every signal: the saved
dispositions are reapplied in saved order and `SIG_SETMASK` reinstates the
saved mask, so the resulting state equals the state before `trap`. -/
theorem trap_then_drop_restores (signals : List Sig) (h : signals.Nodup)
    (s : OsState) :
    let out := Trap.trap signals s
    (Trap.drop out.1 out.2).mask = s.mask ∧
    ∀ x, (Trap.drop out.1 out.2).disp x = s.disp x := by
  refine ⟨rfl, fun x => ?_⟩
  exact restore_trapLoop (mkSigSet signals) signals h s.disp x

/-- Witness for C1 at a concrete state and signal list. -/
theorem trap_then_drop_restores_witness :
    ([2, 15] : List Sig).Nodup ∧
    ((Trap.drop (Trap.trap [2, 15] ⟨{9}, fun _ => ⟨.sigDfl, ∅⟩⟩).1
        (Trap.trap [2, 15] ⟨{9}, fun _ => ⟨.sigDfl, ∅⟩⟩).2).mask = {9} ∧
     ∀ x, (Trap.drop (Trap.trap [2, 15] ⟨{9}, fun _ => ⟨.sigDfl, ∅⟩⟩).1
        (Trap.trap [2, 15] ⟨{9}, fun _ => ⟨.sigDfl, ∅⟩⟩).2).disp x =
          (⟨.sigDfl, ∅⟩ : SigActionV)) :=
  ⟨by decide, trap_then_drop_restores [2, 15] (by decide) ⟨{9}, fun _ => ⟨.sigDfl, ∅⟩⟩⟩

theorem trapLoop_disp_not_mem (sigset : Finset Sig) (l : List Sig)
    (d : Sig → SigActionV) (x : Sig) (hx : x ∉ l) :
    (trapLoop sigset l d).2 x = d x := by
  induction l generalizing d with
  | nil => rfl
  | cons a rest ih =>
      have hxa : x ≠ a := fun h => hx (by simp [h])
      have hxr : x ∉ rest := fun h => hx (by simp [h])
      simp only [trapLoop]
      rw [ih _ hxr]
      simp [updDisp, hxa]

/-- C10: `Trap::trap` changes the disposition only of the listed signals;
every signal outside the list keeps its disposition, and the mask after
`trap` is exactly the previous mask with the listed signals added (so
signals blocked before remain blocked). -/
theorem trap_frame (signals : List Sig) (s : OsState) :
    ((Trap.trap signals s).2.mask = s.mask ∪ mkSigSet signals ∧
      ∀ x, x ∈ (Trap.trap signals s).2.mask ↔ x ∈ s.mask ∨ x ∈ signals) ∧
    (∀ x, x ∉ signals → (Trap.trap signals s).2.disp x = s.disp x) := by
  refine ⟨⟨rfl, fun x => ?_⟩, fun x hx => ?_⟩
  · simp [Trap.trap, Finset.mem_union, mem_mkSigSet]
  · exact trapLoop_disp_not_mem (mkSigSet signals) signals s.disp x hx

/-- Witness for C10 at a concrete state and signal list. -/
theorem trap_frame_witness :
    ((Trap.trap [2, 15] ⟨{9}, fun _ => ⟨.sigDfl, ∅⟩⟩).2.mask =
        {9} ∪ mkSigSet [2, 15] ∧
      ∀ x, x ∈ (Trap.trap [2, 15] ⟨{9}, fun _ => ⟨.sigDfl, ∅⟩⟩).2.mask ↔
        x ∈ ({9} : Finset Sig) ∨ x ∈ ([2, 15] : List Sig)) ∧
    ∀ x, x ∉ ([2, 15] : List Sig) →
      (Trap.trap [2, 15] ⟨{9}, fun _ => ⟨.sigDfl, ∅⟩⟩).2.disp x =
        (⟨.sigDfl, ∅⟩ : SigActionV) :=
  trap_frame [2, 15] ⟨{9}, fun _ => ⟨.sigDfl, ∅⟩⟩

/-! ## `Trap::wait` (src/trap.rs lines 71-105)

`wait(deadline)` loops around `sigtimedwait`.  Each iteration reads the
clock (`Instant::now()`), computes the remaining timeout from the deadline
(zero when the deadline has passed), and calls `sigtimedwait`.  The OS
behaviour of each iteration is an oracle entry: the observed clock value,
the return value of `sigtimedwait`, and the errno it left.  Times and
durations are modelled in nanoseconds as integers. -/

/-- Linux errno value for interrupted call. -/
def eintr : Int := 4

/-- Linux errno value for timeout of `sigtimedwait`. -/
def eagain : Int := 11

/-- One iteration of the `wait` loop as the OS produced it. -/
structure WaitIter where
  now : Int
  result : Int
  errnoV : Int
  deriving DecidableEq, Repr

/-- The timeout value `wait` computes for one iteration (src/trap.rs
lines 76-86): `deadline - now` when the deadline is in the future,
otherwise zero. -/
def timeoutAt (deadline now : Int) : Int :=
  if deadline > now then deadline - now else 0

/-- How a run of the `wait` loop ends. -/
inductive WaitOutcome where
  /-- `sigtimedwait` returned a positive signal number: `Some(signal)`. -/
  | delivered (sig : Int)
  /-- errno was `EAGAIN`: `wait` returns `None`. -/
  | timedOut
  /-- any other errno: `panic!("Sigwait error: ...")`. -/
  | fatal (e : Int)
  /-- the oracle list ran out while the loop was still retrying. -/
  | running
  deriving DecidableEq, Repr

/-- `Trap::wait(deadline)` (src/trap.rs lines 72-105), run against a list of
iteration oracles.  Returns the list of timeout arguments passed to
successive `sigtimedwait` calls together with the outcome. -/
def waitRun (deadline : Int) : List WaitIter → List Int × WaitOutcome
  | [] => ([], .running)
  | it :: rest =>
      if it.result > 0 then
        ([timeoutAt deadline it.now], .delivered it.result)
      else if it.errnoV = eagain then
        ([timeoutAt deadline it.now], .timedOut)
      else if it.errnoV = eintr then
        let out := waitRun deadline rest
        (timeoutAt deadline it.now :: out.1, out.2)
      else
        ([timeoutAt deadline it.now], .fatal it.errnoV)

/-- C4: `wait(deadline)` (a) on `EINTR` retries transparently — the outcome
is that of the remaining iterations, and the retry's `sigtimedwait` call
uses a timeout recomputed from `deadline` minus that iteration's clock;
(b) on `EAGAIN` returns `None` (timeout outcome); (c) a fatal abort is
only ever raised for an errno that is neither `EAGAIN` nor `EINTR`, so an
interruption is never surfaced to the caller; (d) conversely, any errno
other than `EAGAIN` and `EINTR` aborts fatally with that errno. -/
theorem wait_retry_timeout_fatal (deadline : Int) :
    (∀ (it : WaitIter) (rest : List WaitIter), it.result ≤ 0 → it.errnoV = eintr →
      waitRun deadline (it :: rest) =
        (timeoutAt deadline it.now :: (waitRun deadline rest).1,
         (waitRun deadline rest).2)) ∧
    (∀ (it : WaitIter) (rest : List WaitIter), it.result ≤ 0 → it.errnoV = eagain →
      (waitRun deadline (it :: rest)).2 = .timedOut) ∧
    (∀ (iters : List WaitIter) (e : Int),
      (waitRun deadline iters).2 = .fatal e → e ≠ eagain ∧ e ≠ eintr) ∧
    (∀ (it : WaitIter) (rest : List WaitIter), it.result ≤ 0 →
      it.errnoV ≠ eagain → it.errnoV ≠ eintr →
      (waitRun deadline (it :: rest)).2 = .fatal it.errnoV) := by
  refine ⟨?_, ?_, ?_, ?_⟩
  · intro it rest h1 h2
    have hr : ¬ it.result > 0 := not_lt.mpr h1
    have hne : it.errnoV ≠ eagain := by
      rw [h2]; decide
    simp [waitRun, hr, hne, h2, eintr, eagain]
  · intro it rest h1 h2
    have hr : ¬ it.result > 0 := not_lt.mpr h1
    simp [waitRun, hr, h2]
  · intro iters
    induction iters with
    | nil => intro e h; simp [waitRun] at h
    | cons it rest ih =>
        intro e h
        by_cases hr : it.result > 0
        · simp [waitRun, hr] at h
        · by_cases hag : it.errnoV = eagain
          · simp [waitRun, hr, hag] at h
          · by_cases hin : it.errnoV = eintr
            · simp only [waitRun, if_neg hr, if_neg hag, if_pos hin] at h
              exact ih e h
            · simp only [waitRun, if_neg hr, if_neg hag, if_neg hin] at h
              cases h
              exact ⟨hag, hin⟩
  · intro it rest h1 h2 h3
    have hr : ¬ it.result > 0 := not_lt.mpr h1
    simp [waitRun, hr, h2, h3]

/-- Witness for C4: a concrete run that is interrupted once, then times
out; its two `sigtimedwait` calls each use the recomputed remaining time. -/
theorem wait_retry_timeout_fatal_witness :
    ((⟨105, -1, 4⟩ : WaitIter).result ≤ 0 ∧ (⟨105, -1, 4⟩ : WaitIter).errnoV = eintr ∧
      waitRun 300 [⟨105, -1, 4⟩, ⟨240, -1, 11⟩] =
        (timeoutAt 300 105 :: (waitRun 300 [⟨240, -1, 11⟩]).1,
         (waitRun 300 [⟨240, -1, 11⟩]).2)) ∧
    ((⟨240, -1, 11⟩ : WaitIter).result ≤ 0 ∧
      (waitRun 300 [⟨240, -1, 11⟩]).2 = .timedOut) :=
  ⟨⟨by decide, by decide,
    (wait_retry_timeout_fatal 300).1 ⟨105, -1, 4⟩ [⟨240, -1, 11⟩] (by decide) (by decide)⟩,
   ⟨by decide,
    (wait_retry_timeout_fatal 300).2.1 ⟨240, -1, 11⟩ [] (by decide) (by decide)⟩⟩

/-! ## `exec_handler` module (src/exec_handler.rs)

C strings are modelled as byte lists; `CString::new` fails exactly when the
bytes contain an interior NUL (the code calls `.unwrap()` on it, so a NUL
is a panic).  A `*const c_char` entry of `c_args`/`c_env` is an
`Option CStr`, with `none` standing for the terminating null pointer. -/

/-- A byte string destined for C (`CString` contents, without the
terminating NUL). -/
abbrev CStr := List Nat

/-- `CString::new(bytes)`: fails when the bytes contain an interior NUL. -/
def cstringNew (b : List Nat) : Option CStr :=
  if 0 ∈ b then none else some b

/-- One environment entry as built in `set_command_line` (src/exec_handler.rs
lines 58-63): the key bytes, a literal `=` (byte 61), then the value bytes. -/
def envPair (k v : CStr) : List Nat :=
  k ++ [61] ++ v

/-- The `environ.into_iter().map(...)` loop of `set_command_line`
(src/exec_handler.rs lines 58-64): one `CString` per input pair, in input
order. -/
def buildEnv (environ : List (CStr × CStr)) : Option (List CStr) :=
  environ.mapM (fun kv => cstringNew (envPair kv.1 kv.2))

/-- `struct ExecCommandLine` (src/exec_handler.rs lines 28-35). -/
structure ExecCommandLine where
  program : CStr
  args : List CStr
  c_args : List (Option CStr)
  env : List CStr
  c_env : List (Option CStr)
  pid : Int
  deriving DecidableEq, Repr

/-- The construction of a new `ExecCommandLine` in `set_command_line`
(src/exec_handler.rs lines 55-78): convert the arguments and environment
pairs to C strings, append the null terminators, and capture `getpid()`.
`none` models the `.unwrap()` panics on interior NUL bytes. -/
def buildConfig (program : CStr) (args : List CStr)
    (environ : List (CStr × CStr)) (pid : Int) : Option ExecCommandLine := do
  let args2 ← args.mapM cstringNew
  let c_args := args2.map some ++ [none]
  let env ← buildEnv environ
  let c_env := env.map some ++ [none]
  let prog ← cstringNew program
  pure { program := prog, args := args2, c_args := c_args,
         env := env, c_env := c_env, pid := pid }

/-- Why the crash handler panicked. -/
inductive PanicReason where
  /-- `panic!("Early signal {:?} after fork", sig)` -/
  | postFork (sig : Int)
  /-- `panic!("Couldn't exec on signal {}, err code {}", sig, err)` -/
  | execFailed (sig : Int) (err : Int)
  deriving DecidableEq, Repr

/-- How one invocation of the crash handler ends.  `returned` is the
outcome the handler never produces: falling off its end and resuming the
interrupted code. -/
inductive HandlerOutcome where
  /-- `execve` succeeded: the process image is replaced with this program,
  argv and envp. -/
  | execed (prog : CStr) (argv : List (Option CStr)) (envp : List (Option CStr))
  | panicked (r : PanicReason)
  | returned
  deriving DecidableEq, Repr

/-- Outcome of the `execve` call, supplied by the OS oracle: on success
`execve` does not return, on failure it returns an error code. -/
inductive ExecResult where
  | success
  | failure (err : Int)
  deriving DecidableEq, Repr

/-- `exec_handler(sig)` (src/exec_handler.rs lines 85-96), with the current
pid and the dereferenced `EXEC_COMMAND_LINE` configuration made explicit:
panic if the pid differs from the configuration's saved pid, otherwise
`execve(program, c_args, c_env)`, and panic if `execve` returns. -/
def exec_handler (sig : Int) (curPid : Int) (cfg : ExecCommandLine)
    (res : ExecResult) : HandlerOutcome :=
  if curPid ≠ cfg.pid then
    .panicked (.postFork sig)
  else
    match res with
    | .success => .execed cfg.program cfg.c_args cfg.c_env
    | .failure err => .panicked (.execFailed sig err)

/-- C5: the crash handler (a) execs with the captured program, argv and
envp when the current pid matches the configuration's owner pid;
(b) panics with the distinct post-fork report, and does not exec, when the
pids differ; (c) panics with the exec-failure report when `execve`
returns an error; and (d) in no case returns to let the old code
continue. -/
theorem exec_handler_cases (sig curPid : Int) (cfg : ExecCommandLine)
    (res : ExecResult) :
    (curPid = cfg.pid → res = .success →
      exec_handler sig curPid cfg res = .execed cfg.program cfg.c_args cfg.c_env) ∧
    (curPid ≠ cfg.pid →
      exec_handler sig curPid cfg res = .panicked (.postFork sig) ∧
      ∀ p a e, exec_handler sig curPid cfg res ≠ .execed p a e) ∧
    (curPid = cfg.pid → ∀ err, res = .failure err →
      exec_handler sig curPid cfg res = .panicked (.execFailed sig err)) ∧
    exec_handler sig curPid cfg res ≠ .returned := by
  refine ⟨?_, ?_, ?_, ?_⟩
  · intro hp hr
    simp [exec_handler, hp, hr]
  · intro hp
    refine ⟨by simp [exec_handler, hp], ?_⟩
    intro p a e
    simp [exec_handler, hp]
  · intro hp err hr
    simp [exec_handler, hp, hr]
  · cases res <;> by_cases hp : curPid = cfg.pid <;> simp [exec_handler, hp]

/-- A concrete configuration used by witnesses: program `"a"`, no
arguments, no environment, owner pid 5. -/
def cfgSample : ExecCommandLine :=
  { program := [97], args := [], c_args := [none], env := [], c_env := [none], pid := 5 }

/-- Witness for C5: `cfgSample` exercised on a mismatched pid (the current
pid 7 differs from the owner pid 5) panics with the post-fork report, and
on the matching pid 5 with a successful exec replaces the image. -/
theorem exec_handler_cases_witness :
    exec_handler 6 7 cfgSample .success = .panicked (.postFork 6) ∧
    exec_handler 6 5 cfgSample .success =
      .execed cfgSample.program cfgSample.c_args cfgSample.c_env :=
  ⟨((exec_handler_cases 6 7 cfgSample .success).2.1 (by decide)).1,
   (exec_handler_cases 6 5 cfgSample .success).1 (by decide) rfl⟩

theorem cstringNew_eq {b c : List Nat} (h : cstringNew b = some c) : c = b := by
  by_cases hb : 0 ∈ b
  · simp [cstringNew, hb] at h
  · simp [cstringNew, hb] at h
    exact h.symm

theorem buildEnv_eq (environ : List (CStr × CStr)) (env : List CStr)
    (h : buildEnv environ = some env) :
    env = environ.map (fun kv => envPair kv.1 kv.2) := by
  induction environ generalizing env with
  | nil =>
      rw [buildEnv, List.mapM_nil] at h
      simp only [Option.pure_def, Option.some.injEq] at h
      simp [← h]
  | cons kv rest ih =>
      rw [buildEnv] at h
      rw [List.mapM_cons] at h
      cases hc : cstringNew (envPair kv.1 kv.2) with
      | none => rw [hc] at h; simp at h
      | some c =>
          rw [hc] at h
          cases hr : rest.mapM (fun kv => cstringNew (envPair kv.1 kv.2)) with
          | none => rw [hr] at h; simp at h
          | some tl =>
              rw [hr] at h
              simp at h
              rw [← h]
              have := ih tl hr
              simp [List.map_cons, ← this, cstringNew_eq hc]

/-- C8: when `set_command_line` succeeds in building a configuration, the
environment array later handed to `execve` is exactly one `name=value`
entry per input pair, in input order, followed by the terminating null
pointer — nothing from the ambient process environment is merged in — and
`exec_handler` passes exactly that array to `execve`. -/
theorem c_env_exact (program : CStr) (args : List CStr)
    (environ : List (CStr × CStr)) (pid : Int) (cfg : ExecCommandLine)
    (h : buildConfig program args environ pid = some cfg) :
    cfg.c_env = environ.map (fun kv => some (kv.1 ++ [61] ++ kv.2)) ++ [none] ∧
    cfg.c_env.length = environ.length + 1 ∧
    ∀ sig, exec_handler sig cfg.pid cfg .success =
      .execed cfg.program cfg.c_args
        (environ.map (fun kv => some (kv.1 ++ [61] ++ kv.2)) ++ [none]) := by
  rw [buildConfig] at h
  cases ha : args.mapM cstringNew with
  | none => rw [ha] at h; simp at h
  | some args2 =>
      rw [ha] at h
      cases he : buildEnv environ with
      | none => rw [he] at h; simp at h
      | some env =>
          rw [he] at h
          cases hp : cstringNew program with
          | none => rw [hp] at h; simp at h
          | some prog =>
              rw [hp] at h
              simp only [Option.bind_eq_bind, Option.some_bind, Option.pure_def,
                Option.some.injEq] at h
              have henv : cfg.c_env =
                  environ.map (fun kv => some (kv.1 ++ [61] ++ kv.2)) ++ [none] := by
                rw [← h]
                simp only []
                rw [buildEnv_eq environ env he]
                simp [envPair, Function.comp]
              refine ⟨henv, ?_, ?_⟩
              · rw [henv]; simp
              · intro sig
                rw [← henv]
                simp [exec_handler]

/-- The configuration `buildConfig "a" [] [("k", "v")] 3` evaluates to. -/
def cfgEnvSample : ExecCommandLine :=
  { program := [97], args := [], c_args := [none], env := [[107, 61, 118]],
    c_env := [some [107, 61, 118], none], pid := 3 }

/-- Witness for C8 at a one-entry environment. -/
theorem c_env_exact_witness :
    buildConfig [97] [] [([107], [118])] 3 = some cfgEnvSample ∧
    (cfgEnvSample.c_env =
        [([107], [118])].map (fun kv => some (kv.1 ++ [61] ++ kv.2)) ++ [none] ∧
      cfgEnvSample.c_env.length = [([107], [118])].length + 1 ∧
      ∀ sig, exec_handler sig cfgEnvSample.pid cfgEnvSample .success =
        .execed cfgEnvSample.program cfgEnvSample.c_args
          ([([107], [118])].map (fun kv => some (kv.1 ++ [61] ++ kv.2)) ++ [none])) :=
  ⟨by decide, c_env_exact [97] [] [([107], [118])] 3 cfgEnvSample (by decide)⟩

/-! ## The global `EXEC_COMMAND_LINE` pointer during `set_command_line`
(src/exec_handler.rs lines 67-82)

The `unsafe` block of `set_command_line` manipulates the process-wide raw
pointer `EXEC_COMMAND_LINE` in three observable steps:
1. if the pointer is non-null, `transmute::<_, Box<ExecCommandLine>>` turns
   it back into an owning box whose temporary is dropped at once, freeing
   the old configuration (the pointer still designates it);
2. `Box::new(...)` allocates the fully built new configuration;
3. the pointer is assigned to the new allocation and the box forgotten.
The heap is modelled as an allocation list plus a set of freed addresses,
so each intermediate state records what the global pointer designates. -/

/-- The process heap as seen by `set_command_line`: the global pointer,
the live allocations, and the addresses already freed. -/
structure GlobalHeap where
  ptr : Option Nat
  heap : List (Nat × ExecCommandLine)
  freed : List Nat
  deriving DecidableEq, Repr

/-- The successive observable states of the `unsafe` block of
`set_command_line` (src/exec_handler.rs lines 67-82): entry state, state
after dropping the old box, state after `Box::new`, state after the
pointer assignment.  `addr` is the address the new box is allocated at. -/
def setCommandLineStates (g : GlobalHeap) (cfg : ExecCommandLine) (addr : Nat) :
    List GlobalHeap :=
  let g1 :=
    match g.ptr with
    | some a => { g with heap := g.heap.filter (fun p => p.1 ≠ a),
                         freed := a :: g.freed }
    | none => g
  let g2 := { g1 with heap := (addr, cfg) :: g1.heap }
  let g3 := { g2 with ptr := some addr }
  [g, g1, g2, g3]

/-- The global pointer designates an already-freed configuration. -/
def danglingAt (g : GlobalHeap) : Bool :=
  match g.ptr with
  | some a => g.freed.contains a
  | none => false

/-- A heap in which one configuration (`cfgSample`) is installed at
address 0, as left by a first `set_command_line` call. -/
def heapSample : GlobalHeap :=
  { ptr := some 0, heap := [(0, cfgSample)], freed := [] }

/-- C3 (code bug): a second `set_command_line` call that supersedes the
configuration installed at address 0 passes through an intermediate state
(right after the old box is dropped, before the pointer is reassigned) in
which the process-wide pointer designates the already-freed configuration;
a signal delivered at that point would make `exec_handler` read freed
memory.  The entry and final states are sound, so the dangling window is
strictly inside the call. -/
theorem set_command_line_dangling_window :
    danglingAt ((setCommandLineStates heapSample cfgEnvSample 1).getD 1 heapSample)
      = true ∧
    danglingAt ((setCommandLineStates heapSample cfgEnvSample 1).getD 0 heapSample)
      = false ∧
    danglingAt ((setCommandLineStates heapSample cfgEnvSample 1).getD 3 heapSample)
      = false ∧
    ((setCommandLineStates heapSample cfgEnvSample 1).getD 1 heapSample).ptr
      = some 0 ∧
    ((setCommandLineStates heapSample cfgEnvSample 1).getD 1 heapSample).freed
      = [0] := by
  decide

/-! ## `set_handler` (src/exec_handler.rs lines 118-146)

`set_handler` is modelled as a state transformer over the process state
(the global configuration, the dispositions, the signal mask) that also
emits the list of OS calls it makes, in order.  Each `sigaction` event
records the value of the global configuration pointer at call time and
whether the call succeeded; whether a given `sigaction` call fails is an
oracle.  The implicit default configuration (built from `current_exe()`,
`args_os()`, `vars_os()` and `getpid()`) is a parameter. -/

/-- `how` argument of `pthread_sigmask`. -/
inductive MaskHow where
  | block
  | unblock
  | setmask
  deriving DecidableEq, Repr

/-- One OS-visible step of `set_handler`. -/
inductive HEvent where
  /-- the implicit `set_command_line` call installing the default
  configuration (src/exec_handler.rs lines 122-124) -/
  | installCfg (c : ExecCommandLine)
  /-- a `sigaction(sig, act)` call; `cfgPresent` records whether
  `EXEC_COMMAND_LINE` was non-null at call time, `ok` whether the call
  succeeded -/
  | sigactCall (sig : Sig) (act : SigActionV) (cfgPresent : Bool) (ok : Bool)
  /-- a `pthread_sigmask(how, set, NULL)` call -/
  | maskCall (how : MaskHow) (set : Finset Sig)
  deriving DecidableEq

/-- Process state threaded through `set_handler`. -/
structure HState where
  cfg : Option ExecCommandLine
  disp : Sig → SigActionV
  mask : Finset Sig

/-- The action `set_handler` installs: `SigAction::new(SigHandler::Handler(exec_handler),
SaFlags::empty(), sigset)` (src/exec_handler.rs lines 134-136). -/
def execAction (sigset : Finset Sig) : SigActionV :=
  { handler := .execHandler, mask := sigset }

/-- The `for &sig in signals` loop of `set_handler` (src/exec_handler.rs
lines 132-139): `res.and_then(...)` short-circuits, so after the first
`sigaction` failure no further call is made and the first error is kept. -/
def installLoop (sigset : Finset Sig) (fails : Sig → Option Int) :
    List Sig → HState → List HEvent × HState × Except Int Unit
  | [], s => ([], s, .ok ())
  | sig :: rest, s =>
      match fails sig with
      | some e => ([.sigactCall sig (execAction sigset) s.cfg.isSome false], s, .error e)
      | none =>
          let s2 : HState := { s with disp := updDisp s.disp sig (execAction sigset) }
          let out := installLoop sigset fails rest s2
          (.sigactCall sig (execAction sigset) s.cfg.isSome true :: out.1, out.2)

/-- The events of the `if EXEC_COMMAND_LINE == null()` prologue of
`set_handler` (src/exec_handler.rs lines 122-124): the implicit
`set_command_line` call when no configuration is set yet. -/
def preEvents (s : HState) (defaultCfg : ExecCommandLine) : List HEvent :=
  match s.cfg with
  | none => [.installCfg defaultCfg]
  | some _ => []

/-- The state after the same prologue: the default configuration is
installed when none was set. -/
def preState (s : HState) (defaultCfg : ExecCommandLine) : HState :=
  match s.cfg with
  | none => { s with cfg := some defaultCfg }
  | some _ => s

/-- `res.is_ok()` on the accumulated install result. -/
def exceptOk : Except Int Unit → Bool
  | .ok _ => true
  | .error _ => false

/-- `set_handler(signals, avoid_race_condition)` (src/exec_handler.rs lines
118-146): install the default configuration if none is set; build `sigset`
from the signals only when `avoid_race_condition`; install `exec_handler`
for each signal, keeping the first failure; finally, when
`avoid_race_condition` holds and no install failed,
`pthread_sigmask(SIG_UNBLOCK, sigset)`. -/
def set_handler (signals : List Sig) (avoid : Bool) (defaultCfg : ExecCommandLine)
    (fails : Sig → Option Int) (s : HState) :
    List HEvent × HState × Except Int Unit :=
  let sigset := if avoid then mkSigSet signals else ∅
  let out := installLoop sigset fails signals (preState s defaultCfg)
  let resOk := exceptOk out.2.2
  if avoid && resOk then
    (preEvents s defaultCfg ++ out.1 ++ [.maskCall .unblock sigset],
     { out.2.1 with mask := out.2.1.mask \ sigset }, out.2.2)
  else
    (preEvents s defaultCfg ++ out.1, out.2.1, out.2.2)

/-- Is this event a `pthread_sigmask(SIG_BLOCK, ...)` call? -/
def isBlockEv : HEvent → Bool
  | .maskCall .block _ => true
  | _ => false

/-- Is this event a `pthread_sigmask` call of any kind? -/
def isMaskEv : HEvent → Bool
  | .maskCall _ _ => true
  | _ => false

/-- Is this event a `sigaction` call? -/
def isSigactEv : HEvent → Bool
  | .sigactCall _ _ _ _ => true
  | _ => false

/-- A process state with `cfgSample` installed, default dispositions and an
empty mask. -/
def hsSample : HState :=
  { cfg := some cfgSample, disp := fun _ => ⟨.sigDfl, ∅⟩, mask := ∅ }

/-- C2 counterexample: `set_handler([SIGINT, SIGTERM], avoid_race_condition
= true)` with every `sigaction` succeeding installs handlers (there are
`sigaction` events) but never issues a `pthread_sigmask(SIG_BLOCK, ...)`
call — the claimed blocking of the set before installation does not
happen; the only mask call is the final `SIG_UNBLOCK`. -/
theorem set_handler_never_blocks :
    ((set_handler [2, 15] true cfgSample (fun _ => none) hsSample).1.any isBlockEv)
      = false ∧
    ((set_handler [2, 15] true cfgSample (fun _ => none) hsSample).1.any isSigactEv)
      = true := by
  decide

theorem installLoop_cfg (sigset : Finset Sig) (fails : Sig → Option Int)
    (l : List Sig) (s : HState) :
    (installLoop sigset fails l s).2.1.cfg = s.cfg := by
  induction l generalizing s with
  | nil => rfl
  | cons a rest ih =>
      cases h : fails a with
      | some e => simp [installLoop, h]
      | none => simp [installLoop, h, ih]

theorem installLoop_mask (sigset : Finset Sig) (fails : Sig → Option Int)
    (l : List Sig) (s : HState) :
    (installLoop sigset fails l s).2.1.mask = s.mask := by
  induction l generalizing s with
  | nil => rfl
  | cons a rest ih =>
      cases h : fails a with
      | some e => simp [installLoop, h]
      | none => simp [installLoop, h, ih]

theorem installLoop_ok (sigset : Finset Sig) (fails : Sig → Option Int)
    (l : List Sig) (s : HState) (hok : ∀ sig ∈ l, fails sig = none) :
    (installLoop sigset fails l s).1 =
      l.map (fun sig => .sigactCall sig (execAction sigset) s.cfg.isSome true) ∧
    (installLoop sigset fails l s).2.2 = .ok () := by
  induction l generalizing s with
  | nil => exact ⟨rfl, rfl⟩
  | cons a rest ih =>
      have ha : fails a = none := hok a (by simp)
      have hr : ∀ sig ∈ rest, fails sig = none := fun sig hs => hok sig (by simp [hs])
      have := ih { s with disp := updDisp s.disp a (execAction sigset) } hr
      simp only [installLoop, ha, List.map_cons]
      exact ⟨by rw [this.1], this.2⟩

theorem installLoop_res (sigset : Finset Sig) (fails : Sig → Option Int)
    (l : List Sig) (s : HState) :
    (installLoop sigset fails l s).2.2 =
      (l.findSome? fails).elim (Except.ok ()) Except.error := by
  induction l generalizing s with
  | nil => rfl
  | cons a rest ih =>
      cases h : fails a with
      | some e => simp [installLoop, h, List.findSome?_cons, Option.elim]
      | none => simp [installLoop, h, List.findSome?_cons, ih]

theorem installLoop_disp_preserve (sigset : Finset Sig) (fails : Sig → Option Int)
    (l : List Sig) (s : HState) (x : Sig)
    (hx : s.disp x = execAction sigset) :
    (installLoop sigset fails l s).2.1.disp x = execAction sigset := by
  induction l generalizing s with
  | nil => exact hx
  | cons a rest ih =>
      cases h : fails a with
      | some e => simp [installLoop, h, hx]
      | none =>
          simp only [installLoop, h]
          apply ih
          by_cases hxa : x = a <;> simp [updDisp, hxa, hx]

theorem installLoop_disp_prefix (sigset : Finset Sig) (fails : Sig → Option Int)
    (l : List Sig) (s : HState) (x : Sig)
    (hx : x ∈ l.takeWhile (fun t => (fails t).isNone)) :
    (installLoop sigset fails l s).2.1.disp x = execAction sigset := by
  induction l generalizing s with
  | nil => simp at hx
  | cons a rest ih =>
      cases h : fails a with
      | some e =>
          rw [List.takeWhile_cons] at hx
          simp [h] at hx
      | none =>
          rw [List.takeWhile_cons] at hx
          simp only [h, Option.isNone_none, if_pos] at hx
          rcases List.mem_cons.mp hx with hxa | hxr
          · subst hxa
            simp only [installLoop, h]
            apply installLoop_disp_preserve
            simp [updDisp]
          · simp only [installLoop, h]
            exact ih _ hxr


/-- For a `sigaction` event, the installed action equals `a`; trivially
true for other events. -/
def sigactActIs (a : SigActionV) : HEvent → Bool
  | .sigactCall _ act _ _ => decide (act = a)
  | _ => true

/-- For a `sigaction` event, the configuration pointer was non-null at
call time; trivially true for other events. -/
def sigactCfgPresent : HEvent → Bool
  | .sigactCall _ _ b _ => b
  | _ => true

theorem preState_cfg_isSome (s : HState) (dc : ExecCommandLine) :
    (preState s dc).cfg.isSome = true := by
  cases h : s.cfg <;> simp [preState, h]

theorem mem_preEvents (s : HState) (dc : ExecCommandLine) (ev : HEvent)
    (h : ev ∈ preEvents s dc) : ev = .installCfg dc := by
  cases hc : s.cfg <;> rw [preEvents, hc] at h <;> simp at h
  exact h

theorem installLoop_cfgPresent (sigset : Finset Sig) (fails : Sig → Option Int)
    (l : List Sig) (s : HState) (hs : s.cfg.isSome = true) :
    ∀ ev ∈ (installLoop sigset fails l s).1, sigactCfgPresent ev = true := by
  induction l generalizing s with
  | nil => intro ev hev; simp [installLoop] at hev
  | cons a rest ih =>
      intro ev hev
      cases h : fails a with
      | some e =>
          rw [installLoop, h] at hev
          simp at hev
          rw [hev]
          simpa [sigactCfgPresent] using hs
      | none =>
          rw [installLoop, h] at hev
          rcases List.mem_cons.mp hev with h1 | h2
          · rw [h1]
            simpa [sigactCfgPresent] using hs
          · exact ih { s with disp := updDisp s.disp a (execAction sigset) } hs ev h2

theorem set_handler_res_eq (signals : List Sig) (avoid : Bool)
    (dc : ExecCommandLine) (fails : Sig → Option Int) (s : HState) :
    (set_handler signals avoid dc fails s).2.2 =
      (installLoop (if avoid then mkSigSet signals else ∅) fails signals
        (preState s dc)).2.2 := by
  simp only [set_handler]
  by_cases hc : (avoid && exceptOk (installLoop (if avoid then mkSigSet signals else ∅)
      fails signals (preState s dc)).2.2) = true
  · rw [if_pos hc]
  · rw [if_neg hc]

theorem set_handler_disp_eq (signals : List Sig) (avoid : Bool)
    (dc : ExecCommandLine) (fails : Sig → Option Int) (s : HState) :
    (set_handler signals avoid dc fails s).2.1.disp =
      (installLoop (if avoid then mkSigSet signals else ∅) fails signals
        (preState s dc)).2.1.disp := by
  simp only [set_handler]
  by_cases hc : (avoid && exceptOk (installLoop (if avoid then mkSigSet signals else ∅)
      fails signals (preState s dc)).2.2) = true
  · rw [if_pos hc]
  · rw [if_neg hc]

theorem set_handler_cfg_eq (signals : List Sig) (avoid : Bool)
    (dc : ExecCommandLine) (fails : Sig → Option Int) (s : HState) :
    (set_handler signals avoid dc fails s).2.1.cfg = (preState s dc).cfg := by
  simp only [set_handler]
  by_cases hc : (avoid && exceptOk (installLoop (if avoid then mkSigSet signals else ∅)
      fails signals (preState s dc)).2.2) = true
  · rw [if_pos hc]
    exact installLoop_cfg _ _ _ _
  · rw [if_neg hc]
    exact installLoop_cfg _ _ _ _

/-- C2 (amended): with `avoid_race_condition = true` and every `sigaction`
succeeding, `set_handler` never blocks the signal set at the signal-mask
level (no `SIG_BLOCK` call is ever made); instead every handler it
installs carries the whole signal set as the handler's `sa_mask`, and the
single mask-level call it makes is a final `SIG_UNBLOCK` of the whole set,
issued only after every handler in the set has been installed. -/
theorem set_handler_race_avoidance (signals : List Sig) (dc : ExecCommandLine)
    (fails : Sig → Option Int) (s : HState)
    (hok : ∀ sig ∈ signals, fails sig = none) :
    (∀ ev ∈ (set_handler signals true dc fails s).1, isBlockEv ev = false) ∧
    (∀ ev ∈ (set_handler signals true dc fails s).1,
      sigactActIs (execAction (mkSigSet signals)) ev = true) ∧
    (set_handler signals true dc fails s).1.getLast? =
      some (.maskCall .unblock (mkSigSet signals)) ∧
    (set_handler signals true dc fails s).1.filter isMaskEv =
      [.maskCall .unblock (mkSigSet signals)] ∧
    (set_handler signals true dc fails s).2.2 = .ok () := by
  have h1 := installLoop_ok (mkSigSet signals) fails signals (preState s dc) hok
  have hpre := preState_cfg_isSome s dc
  have hc : (true && exceptOk (installLoop (mkSigSet signals) fails signals
      (preState s dc)).2.2) = true := by
    rw [h1.2]; rfl
  have hevs : (set_handler signals true dc fails s).1 =
      preEvents s dc ++
        signals.map (fun sig =>
          HEvent.sigactCall sig (execAction (mkSigSet signals)) true true) ++
        [.maskCall .unblock (mkSigSet signals)] := by
    simp only [set_handler, if_true]
    rw [if_pos hc]
    simp only [h1.1, hpre]
  refine ⟨?_, ?_, ?_, ?_, ?_⟩
  · intro ev hev
    rw [hevs] at hev
    rcases List.mem_append.mp hev with h2 | h3
    · rcases List.mem_append.mp h2 with h4 | h5
      · rw [mem_preEvents s dc ev h4]; rfl
      · obtain ⟨sig, _, rfl⟩ := List.mem_map.mp h5
        rfl
    · simp only [List.mem_singleton] at h3
      rw [h3]; rfl
  · intro ev hev
    rw [hevs] at hev
    rcases List.mem_append.mp hev with h2 | h3
    · rcases List.mem_append.mp h2 with h4 | h5
      · rw [mem_preEvents s dc ev h4]; rfl
      · obtain ⟨sig, _, rfl⟩ := List.mem_map.mp h5
        simp [sigactActIs]
    · simp only [List.mem_singleton] at h3
      rw [h3]; rfl
  · rw [hevs]
    exact List.getLast?_concat _
  · rw [hevs, List.filter_append, List.filter_append]
    have hf1 : (preEvents s dc).filter isMaskEv = [] := by
      cases hcf : s.cfg <;> simp [preEvents, hcf, isMaskEv]
    have hf2 : (signals.map (fun sig =>
        HEvent.sigactCall sig (execAction (mkSigSet signals)) true true)).filter
          isMaskEv = [] := by
      rw [List.filter_eq_nil_iff]
      intro a ha
      obtain ⟨sig, _, rfl⟩ := List.mem_map.mp ha
      simp [isMaskEv]
    rw [hf1, hf2]
    rfl
  · rw [set_handler_res_eq signals true dc fails s]
    exact h1.2

/-- Witness for the amended C2 at signals `[2, 15]`, an all-succeeding
`sigaction` oracle and a state with a configuration installed. -/
theorem set_handler_race_avoidance_witness :
    (∀ sig ∈ ([2, 15] : List Sig), (fun _ => (none : Option Int)) sig = none) ∧
    ((∀ ev ∈ (set_handler [2, 15] true cfgSample (fun _ => none) hsSample).1,
        isBlockEv ev = false) ∧
     (∀ ev ∈ (set_handler [2, 15] true cfgSample (fun _ => none) hsSample).1,
        sigactActIs (execAction (mkSigSet [2, 15])) ev = true) ∧
     (set_handler [2, 15] true cfgSample (fun _ => none) hsSample).1.getLast? =
        some (.maskCall .unblock (mkSigSet [2, 15])) ∧
     (set_handler [2, 15] true cfgSample (fun _ => none) hsSample).1.filter isMaskEv =
        [.maskCall .unblock (mkSigSet [2, 15])] ∧
     (set_handler [2, 15] true cfgSample (fun _ => none) hsSample).2.2 = .ok ()) :=
  ⟨by decide,
   set_handler_race_avoidance [2, 15] cfgSample (fun _ => none) hsSample (by decide)⟩

/-- C6: `set_handler` returns the first OS-level `sigaction` failure, in
signal-list order (`Ok` when none fails), and the handlers for the signals
strictly before the first failing one remain installed: their disposition
after the call is the `exec_handler` action. -/
theorem set_handler_first_failure (signals : List Sig) (avoid : Bool)
    (dc : ExecCommandLine) (fails : Sig → Option Int) (s : HState) :
    (set_handler signals avoid dc fails s).2.2 =
      (signals.findSome? fails).elim (Except.ok ()) Except.error ∧
    ∀ sig ∈ signals.takeWhile (fun t => (fails t).isNone),
      (set_handler signals avoid dc fails s).2.1.disp sig =
        execAction (if avoid then mkSigSet signals else ∅) := by
  constructor
  · rw [set_handler_res_eq, installLoop_res]
  · intro sig hs
    rw [set_handler_disp_eq]
    exact installLoop_disp_prefix _ _ _ _ _ hs

/-- The `sigaction` failure oracle used by witnesses: signal 15 fails with
errno 22, every other signal succeeds. -/
def failsSample : Sig → Option Int :=
  fun t => if t = 15 then some 22 else none

/-- Witness for C6: with signals `[2, 15]` and `sigaction` failing on 15
with errno 22, `set_handler` returns that error and signal 2 (before the
failure) keeps the `exec_handler` disposition. -/
theorem set_handler_first_failure_witness :
    (set_handler [2, 15] false cfgSample failsSample hsSample).2.2 =
      .error 22 ∧
    (2 : Sig) ∈ ([2, 15] : List Sig).takeWhile (fun t => (failsSample t).isNone) ∧
    (set_handler [2, 15] false cfgSample failsSample hsSample).2.1.disp 2 =
      execAction ∅ :=
  ⟨((set_handler_first_failure [2, 15] false cfgSample failsSample hsSample).1).trans
     (by rfl),
   by decide,
   (set_handler_first_failure [2, 15] false cfgSample failsSample hsSample).2 2
     (by decide)⟩

theorem buildConfig_fields (program : CStr) (args : List CStr)
    (environ : List (CStr × CStr)) (pid : Int) (cfg : ExecCommandLine)
    (h : buildConfig program args environ pid = some cfg) :
    cfg.pid = pid ∧ cfg.program = program := by
  rw [buildConfig] at h
  cases ha : args.mapM cstringNew with
  | none => rw [ha] at h; simp at h
  | some args2 =>
      rw [ha] at h
      cases he : buildEnv environ with
      | none => rw [he] at h; simp at h
      | some env =>
          rw [he] at h
          cases hp : cstringNew program with
          | none => rw [hp] at h; simp at h
          | some prog =>
              rw [hp] at h
              simp only [Option.bind_eq_bind, Option.some_bind, Option.pure_def,
                Option.some.injEq] at h
              rw [← h]
              exact ⟨rfl, cstringNew_eq hp⟩

/-- C7: when no configuration has been set (`EXEC_COMMAND_LINE` null) and
`set_handler` is called, its first action — before any `sigaction` call —
is to install the configuration built from the current process's
executable path, arguments and environment, capturing the current process
id as the owner pid; after the call this configuration is the installed
one. -/
theorem set_handler_installs_default (signals : List Sig) (avoid : Bool)
    (fails : Sig → Option Int) (s : HState) (dc : ExecCommandLine)
    (exe : CStr) (argl : List CStr) (vars : List (CStr × CStr)) (pid : Int)
    (h1 : s.cfg = none) (h2 : buildConfig exe argl vars pid = some dc) :
    (set_handler signals avoid dc fails s).1.head? = some (.installCfg dc) ∧
    dc.program = exe ∧ dc.pid = pid ∧
    (set_handler signals avoid dc fails s).2.1.cfg = some dc := by
  have hf := buildConfig_fields exe argl vars pid dc h2
  refine ⟨?_, hf.2, hf.1, ?_⟩
  · have hpe : preEvents s dc = [.installCfg dc] := by
      rw [preEvents, h1]
    simp only [set_handler]
    by_cases hcnd : (avoid && exceptOk (installLoop (if avoid then mkSigSet signals
        else ∅) fails signals (preState s dc)).2.2) = true
    · rw [if_pos hcnd]
      simp [hpe]
    · rw [if_neg hcnd]
      simp [hpe]
  · rw [set_handler_cfg_eq, preState, h1]

/-- A process state with no configuration installed. -/
def hsNone : HState :=
  { cfg := none, disp := fun _ => ⟨.sigDfl, ∅⟩, mask := ∅ }

/-- Witness for C7: starting from a null configuration, `set_handler`'s
first event installs `cfgEnvSample`, the configuration that
`buildConfig "a" [] [("k", "v")] 3` yields. -/
theorem set_handler_installs_default_witness :
    hsNone.cfg = none ∧
    buildConfig [97] [] [([107], [118])] 3 = some cfgEnvSample ∧
    ((set_handler [2] false cfgEnvSample (fun _ => none) hsNone).1.head? =
        some (.installCfg cfgEnvSample) ∧
      cfgEnvSample.program = [97] ∧ cfgEnvSample.pid = 3 ∧
      (set_handler [2] false cfgEnvSample (fun _ => none) hsNone).2.1.cfg =
        some cfgEnvSample) :=
  ⟨rfl, by decide,
   set_handler_installs_default [2] false (fun _ => none) hsNone cfgEnvSample
     [97] [] [([107], [118])] 3 rfl (by decide)⟩

/-- C9: every `sigaction` call `set_handler` makes — whether the overall
call succeeds or fails part-way — happens while the process-wide
configuration pointer is non-null, and the pointer is still non-null when
`set_handler` returns; so a configured signal delivered after any
(partially) successful `set_handler` never makes `exec_handler`
dereference a null configuration. -/
theorem set_handler_cfg_nonnull (signals : List Sig) (avoid : Bool)
    (dc : ExecCommandLine) (fails : Sig → Option Int) (s : HState) :
    (∀ ev ∈ (set_handler signals avoid dc fails s).1, sigactCfgPresent ev = true) ∧
    (set_handler signals avoid dc fails s).2.1.cfg ≠ none := by
  constructor
  · intro ev hev
    have hpre := preState_cfg_isSome s dc
    simp only [set_handler] at hev
    by_cases hcnd : (avoid && exceptOk (installLoop (if avoid then mkSigSet signals
        else ∅) fails signals (preState s dc)).2.2) = true
    · rw [if_pos hcnd] at hev
      rcases List.mem_append.mp hev with h2 | h3
      · rcases List.mem_append.mp h2 with h4 | h5
        · rw [mem_preEvents s dc ev h4]; rfl
        · exact installLoop_cfgPresent _ _ _ _ hpre ev h5
      · simp only [List.mem_singleton] at h3
        rw [h3]; rfl
    · rw [if_neg hcnd] at hev
      rcases List.mem_append.mp hev with h4 | h5
      · rw [mem_preEvents s dc ev h4]; rfl
      · exact installLoop_cfgPresent _ _ _ _ hpre ev h5
  · rw [set_handler_cfg_eq]
    cases hc : s.cfg <;> simp [preState, hc]

/-- Witness for C9: in the concrete trace of `set_handler([2], false)` on a
state with no configuration, the one `sigaction` event records a non-null
configuration pointer, and the final configuration is non-null. -/
theorem set_handler_cfg_nonnull_witness :
    HEvent.sigactCall 2 (execAction ∅) true true ∈
      (set_handler [2] false cfgSample (fun _ => none) hsNone).1 ∧
    sigactCfgPresent (HEvent.sigactCall 2 (execAction ∅) true true) = true ∧
    (set_handler [2] false cfgSample (fun _ => none) hsNone).2.1.cfg ≠ none :=
  ⟨by decide,
   (set_handler_cfg_nonnull [2] false cfgSample (fun _ => none) hsNone).1
     (HEvent.sigactCall 2 (execAction ∅) true true) (by decide),
   (set_handler_cfg_nonnull [2] false cfgSample (fun _ => none) hsNone).2⟩
